import Mathlib

set_option maxRecDepth 40000

/-!
Verification of the sargenjs code-generation core against its specification.

The development shallowly embeds the relevant JavaScript functions:

* `parseModelAttributes` embeds `moduleHelper._parseModelAttributes`
  (lib/helpers/module-helper.js), together with `dataTypeMapping`
  (`moduleHelper._dataTypeMapping`).
* `appendContentFS` embeds `fileHelper._appendContent`
  (lib/helpers/file-helper.js), modelling the target file as an
  `Option Str` (`none` = the file does not exist) and the observable
  effect as the pair (file content after the call, status).
* `addDirsAndFiles` embeds `fileHelper._addDirsAndFiles`
  (lib/helpers/file-helper.js) over a small file-system state, recording
  the trace of `mkdir` / `write` operations it performs.
* `generateMigrationContent` embeds `Generate._generateMigrationContent`
  (lib/src/sargen.js).

Strings are modelled as `List Char` (`Str`), with JavaScript-faithful
`split`, `trim`, `toLowerCase`, `startsWith` and `lastIndexOf` operations
defined below.
-/

/-- Strings of the embedded program, as lists of characters. -/
abbrev Str := List Char

/-- Conversion from Lean string literals to the embedded string type. -/
def str (s : String) : Str := s.data

/-- JavaScript `s.split(c)` for a one-character separator: splitting the
empty string yields `[""]`, separators at the ends yield empty segments. -/
def splitOnChar (c : Char) : Str → List Str
  | [] => [[]]
  | x :: xs =>
    match splitOnChar c xs with
    | [] => [[]]
    | y :: ys => if x = c then [] :: y :: ys else (x :: y) :: ys

/-- Whitespace characters removed by JavaScript `String.prototype.trim`. -/
def isWS (c : Char) : Bool :=
  c = ' ' || c = '\t' || c = '\n' || c = '\r' || c = '\x0b' || c = '\x0c'

/-- JavaScript `s.trim()`: strip whitespace from both ends. -/
def trimStr (s : Str) : Str :=
  ((s.dropWhile isWS).reverse.dropWhile isWS).reverse

/-- ASCII lower-casing of one character, as done by `toLowerCase` on the
inputs at hand. -/
def toLowerChar (c : Char) : Char :=
  if 'A' ≤ c ∧ c ≤ 'Z' then Char.ofNat (c.toNat + 32) else c

/-- JavaScript `s.toLowerCase()` on ASCII strings. -/
def toLowerStr (s : Str) : Str := s.map toLowerChar

/-- JavaScript `hay.startsWith(needle)`: `needle` occurs at the start of
`hay`. -/
def leadsWith : Str → Str → Bool
  | [], _ => true
  | _ :: _, [] => false
  | a :: as, b :: bs => a = b && leadsWith as bs

/-- JavaScript `Array.prototype.join(sep)`. -/
def joinSep (sep : Str) : List Str → Str
  | [] => []
  | [x] => x
  | x :: y :: ys => x ++ sep ++ joinSep sep (y :: ys)

/-- Concatenation of the images of a list under a list-valued function. -/
def concatMap (f : α → List β) : List α → List β
  | [] => []
  | x :: xs => f x ++ concatMap f xs

/-! ## Attribute parser (`moduleHelper._parseModelAttributes`) -/

/-- One parsed attribute: `name` and resolved Sequelize `type` code, as
pushed by `_parseModelAttributes`. -/
structure Attr where
  name : Str
  type : Str
deriving DecidableEq, Repr

/-- The own entries of the `moduleHelper._dataTypeMapping` object
literal: user-friendly type names to Sequelize DataTypes codes. The
property read performed by the parser is `dataTypeLookup` below, which
also covers the inherited members a JavaScript plain-object read
reaches. -/
def dataTypeMapping (s : Str) : Option Str :=
  if s = str "string" then some (str "STRING")
  else if s = str "number" then some (str "BIGINT")
  else if s = str "integer" then some (str "INTEGER")
  else if s = str "bool" then some (str "BOOLEAN")
  else if s = str "boolean" then some (str "BOOLEAN")
  else if s = str "float" then some (str "FLOAT")
  else if s = str "date" then some (str "DATE")
  else none

/-- The property read `this._dataTypeMapping[t]` of the type check and
of the pushed `type` field (module-helper.js lines 63 and 75). A
JavaScript plain-object read traverses the prototype chain, so besides
the object's own keys it reaches the members of `Object.prototype`; as
`t` has been lower-cased, the only reachable ones are the all-lowercase
`constructor` (the `Object` constructor function) and `__proto__`
(`Object.prototype`), both truthy. These two inherited values are
functions/objects, not strings; they are represented here by their
JavaScript string conversions, which is the only way the stored `type`
value is subsequently consumed (template-literal interpolation). -/
def dataTypeLookup (s : Str) : Option Str :=
  match dataTypeMapping s with
  | some v => some v
  | none =>
    if s = str "constructor" then
      some (str "function Object() \x7b [native code] \x7d")
    else if s = str "__proto__" then some (str "[object Object]")
    else none

/-- The keys of `_dataTypeMapping`, in object-literal order, joined by
`Object.keys(...).join(', ')` in the unsupported-type error message
(`Object.keys` lists own keys only). -/
def supportedTypesList : Str :=
  str "string, number, integer, bool, boolean, float, date"

/-- Character class `[a-zA-Z_]` of the column-name regex. -/
def isIdentStart (c : Char) : Bool :=
  ('a' ≤ c && c ≤ 'z') || ('A' ≤ c && c ≤ 'Z') || c = '_'

/-- Character class `[a-zA-Z0-9_]` of the column-name regex. -/
def isIdentChar (c : Char) : Bool :=
  isIdentStart c || ('0' ≤ c && c ≤ '9')

/-- Test of the column-name regex `^[a-zA-Z_][a-zA-Z0-9_]*$`. -/
def validName : Str → Bool
  | [] => false
  | c :: cs => isIdentStart c && cs.all isIdentChar

/-- Error text `Invalid attribute format: "..." ...` thrown by
`_parseModelAttributes`. -/
def invalidFormatMsg (pair : Str) : Str :=
  str "Invalid attribute format: \"" ++ pair ++
    str "\". Expected format: \"columnName:dataType\""

/-- Error text `Unsupported data type: "..." ...` thrown by
`_parseModelAttributes`; it names the supported type set. -/
def unsupportedMsg (t : Str) : Str :=
  str "Unsupported data type: \"" ++ t ++ str "\". Supported types: " ++
    supportedTypesList

/-- Error text `Invalid column name: "..." ...` thrown by
`_parseModelAttributes`. -/
def invalidNameMsg (n : Str) : Str :=
  str "Invalid column name: \"" ++ n ++
    str "\". Use only letters, numbers, and underscores."

/-- Error text for inputs longer than 2000 characters. -/
def tooLargeMsg : Str := str "Input too large. Maximum 2000 characters allowed."

/-- Error text for more than 30 comma-separated attribute segments. -/
def tooManyMsg : Str := str "Too many attributes. Maximum 30 attributes allowed."

/-- Body of the `for (const pair of attributePairs)` loop of
`_parseModelAttributes` for one (already trimmed) segment: destructure
the first two pieces of `split(':')` into `columnName` and `dataType`,
reject falsy pieces, resolve the data type, then validate the column
name. -/
def parseAttrPair (seg : Str) : Except Str Attr :=
  match splitOnChar ':' seg with
  | [] => Except.error (invalidFormatMsg seg)
  | [_] => Except.error (invalidFormatMsg seg)
  | n :: t :: _ =>
    if n = [] ∨ t = [] then Except.error (invalidFormatMsg seg)
    else
      let tn := trimStr n
      let tt := toLowerStr (trimStr t)
      match dataTypeLookup tt with
      | none => Except.error (unsupportedMsg tt)
      | some ty =>
        if validName tn then Except.ok (Attr.mk tn ty)
        else Except.error (invalidNameMsg tn)

/-- The loop of `_parseModelAttributes` over the comma-separated
segments: empty (after trimming) segments are skipped with `continue`,
and the first failing segment aborts with its error. -/
def parseSegments : List Str → Except Str (List Attr)
  | [] => Except.ok []
  | p :: ps =>
    if trimStr p = [] then parseSegments ps
    else
      match parseAttrPair (trimStr p) with
      | Except.error e => Except.error e
      | Except.ok a =>
        match parseSegments ps with
        | Except.error e => Except.error e
        | Except.ok rest => Except.ok (a :: rest)

/-- Embedding of `moduleHelper._parseModelAttributes`: empty or
whitespace-only input yields `[]`; inputs longer than 2000 characters or
with more than 30 comma-separated segments are rejected; otherwise the
segments are parsed in order. -/
def parseModelAttributes (s : Str) : Except Str (List Attr) :=
  if trimStr s = [] then Except.ok []
  else if 2000 < s.length then Except.error tooLargeMsg
  else if 30 < (splitOnChar ',' s).length then Except.error tooManyMsg
  else parseSegments (splitOnChar ',' s)

/-! ## Content patcher (`fileHelper._appendContent`) -/

/-- JavaScript `hay.lastIndexOf(needle)`: the largest index at which
`needle` occurs in `hay` (as `none` instead of `-1` when absent; an empty
`needle` is found at `hay.length`). -/
def jsLastIndexOf (hay needle : Str) : Option Nat :=
  (((List.range (hay.length + 1)).filter
      (fun i => leadsWith needle (hay.drop i)))).getLast?

/-- The options object of `_appendContent`: the content to insert, the
position (`"before"`, `"after"`, anything else appends at the end) and
the anchor line. -/
structure AppendOpts where
  content : Str
  appendAt : Str
  appendLine : Str
deriving DecidableEq, Repr

/-- Observable outcome of one `_appendContent` call: an exception was
thrown, the anchor was not found (the error is only logged and the
function returns), or the file was (re)written. -/
inductive AStatus where
  | threwErr
  | anchorMissing
  | appended
deriving DecidableEq, Repr

/-- Embedding of `fileHelper._appendContent`. The target file is
`none` when it does not exist on disk, otherwise `some` its content;
the result is the pair (file content after the call, outcome). -/
def appendContentFS (file : Option Str) (opts : AppendOpts) : Option Str × AStatus :=
  match file with
  | none => (none, AStatus.threwErr)
  | some fc =>
    if opts.content = [] then (some fc, AStatus.threwErr)
    else if opts.appendAt = str "before" then
      match jsLastIndexOf fc opts.appendLine with
      | none => (some fc, AStatus.anchorMissing)
      | some i =>
        (some (fc.take i ++ '\n' :: (opts.content ++ '\n' :: fc.drop i)),
          AStatus.appended)
    else if opts.appendAt = str "after" then
      let lines := splitOnChar '\n' fc
      let modified := lines.foldl
        (fun acc line =>
          if leadsWith opts.appendLine (trimStr line) then acc ++ [line, opts.content]
          else acc ++ [line]) []
      if lines.any (fun line => leadsWith opts.appendLine (trimStr line)) then
        (some (joinSep (str "\n") modified), AStatus.appended)
      else (some fc, AStatus.anchorMissing)
    else (some (fc ++ opts.content), AStatus.appended)

/-! ## Structure resolver (`fileHelper._addDirsAndFiles`) -/

/-- Template data passed to `templateHelper._renderTemplate`; its
shape is irrelevant here, rendering is a collaborator supplied as a
function argument. -/
abbrev TData := List (Str × Str)

/-- One entry of the structure plan passed to `_addDirsAndFiles`:
either a `dir` item carrying a list of directory paths, or a `file`
item carrying a path, optional literal content (`""` when absent),
an optional template reference (`""` when absent), optional template
data, and the `force` flag some callers attach. -/
inductive Item where
  | dir (names : List Str)
  | file (name : Str) (content : Str) (template : Str)
      (templateData : Option TData) (force : Bool)
deriving DecidableEq, Repr

/-- The file-system state: directories that exist and files with their
contents. -/
structure FS where
  dirs : List Str
  files : List (Str × Str)
deriving DecidableEq, Repr

/-- `fs.existsSync(p)`: a directory or file exists at path `p`. -/
def existsP (fs : FS) (p : Str) : Bool :=
  fs.dirs.contains p || fs.files.any (fun f => f.1 = p)

/-- `fs.writeFileSync(p, c)`: replace the content stored at `p`, or add
the file when absent. -/
def setFile (fs : FS) (p c : Str) : FS :=
  if fs.files.any (fun f => f.1 = p) then
    FS.mk fs.dirs (fs.files.map (fun f => if f.1 = p then (p, c) else f))
  else FS.mk fs.dirs (fs.files ++ [(p, c)])

/-- One observable file-system operation performed by the resolver. -/
inductive Op where
  | mkdir (p : Str)
  | write (p : Str) (c : Str)
deriving DecidableEq, Repr

/-- `path.join(projectPath, name)` for the paths at hand. -/
def pjoin (a b : Str) : Str := a ++ '/' :: b

/-- The inner `item.name.forEach` loop of the directory pass: create
each directory that does not already exist. -/
def ensureDirs (pp : Str) (fs : FS) : List Str → FS × List Op
  | [] => (fs, [])
  | d :: ds =>
    let p := pjoin pp d
    if existsP fs p then ensureDirs pp fs ds
    else
      let r := ensureDirs pp (FS.mk (fs.dirs ++ [p]) fs.files) ds
      (r.1, Op.mkdir p :: r.2)

/-- First `structure.forEach` pass of `_addDirsAndFiles`: create the
directories of every `dir` item, in plan order. -/
def dirPass (pp : Str) (fs : FS) : List Item → FS × List Op
  | [] => (fs, [])
  | Item.dir ns :: its =>
    let r1 := ensureDirs pp fs ns
    let r2 := dirPass pp r1.1 its
    (r2.1, r1.2 ++ r2.2)
  | Item.file _ _ _ _ _ :: its => dirPass pp fs its

/-- Rendering step: `_renderTemplate` is applied only when
`item.templateData` is provided. -/
def renderOpt (rend : Str → TData → Str) (tc : Str) : Option TData → Str
  | some d => rend tc d
  | none => tc

/-- Second `structure.forEach` pass of `_addDirsAndFiles`: write every
`file` item whose target does not yet exist, from its template when the
literal content is empty and a template is named, aborting everything
(`process.exit(1)`) when the named template does not exist. `tpl` is the
template store and `rend` the template renderer, both collaborators.
The `Bool` is `false` when the pass aborted. -/
def filePass (tpl : Str → Option Str) (rend : Str → TData → Str) (pp : Str)
    (fs : FS) : List Item → FS × List Op × Bool
  | [] => (fs, [], true)
  | Item.dir _ :: its => filePass tpl rend pp fs its
  | Item.file name content template tData _force :: its =>
    let p := pjoin pp name
    if existsP fs p then filePass tpl rend pp fs its
    else if content = [] ∧ template ≠ [] then
      match tpl template with
      | some tc =>
        let c := renderOpt rend tc tData
        let r := filePass tpl rend pp (setFile fs p c) its
        (r.1, Op.write p c :: r.2.1, r.2.2)
      | none => (fs, [], false)
    else
      let r := filePass tpl rend pp (setFile fs p content) its
      (r.1, Op.write p content :: r.2.1, r.2.2)

/-- Embedding of `fileHelper._addDirsAndFiles`: the directory pass runs
over the whole plan first, then the file pass runs over the whole plan;
the result records the final file system, the operation trace, and
whether the run completed without aborting. -/
def addDirsAndFiles (tpl : Str → Option Str) (rend : Str → TData → Str)
    (pp : Str) (fs : FS) (items : List Item) : FS × List Op × Bool :=
  let r1 := dirPass pp fs items
  let r2 := filePass tpl rend pp r1.1 items
  (r2.1, r1.2 ++ r2.2.1, r2.2.2)

/-- The directory paths listed by the `dir` entries of a plan, in plan
order. -/
def listedDirs : List Item → List Str :=
  concatMap (fun it =>
    match it with
    | Item.dir ns => ns
    | Item.file _ _ _ _ _ => [])

/-- The target paths of the `file` entries of a plan, in plan order. -/
def fileNames : List Item → List Str :=
  concatMap (fun it =>
    match it with
    | Item.dir _ => []
    | Item.file n _ _ _ _ => [n])

/-- The path an operation touches. -/
def opPath : Op → Str
  | Op.mkdir p => p
  | Op.write p _ => p

/-! ## Migration generator (`Generate._generateMigrationContent`) -/

/-- One column entry of the generated migration, as produced by the
`modelAttributes.map` callback of `_generateMigrationContent`. -/
def migColEntry (a : Attr) : Str :=
  str "      " ++ a.name ++ str ": \x7b\n        type: Sequelize." ++ a.type ++
    str ",\n        allowNull: true\n      \x7d"

/-- The fixed text of the migration template before the per-attribute
column entries: the `up` operation header, `createTable` call and the
`id` primary-key column. -/
def migHeader (m : Str) : Str :=
  str "'use strict';\n\nmodule.exports = \x7b\n  async up(queryInterface, Sequelize) \x7b\n    await queryInterface.createTable('" ++
    m ++
    str "', \x7b\n      id: \x7b\n        allowNull: false,\n        autoIncrement: true,\n        primaryKey: true,\n        type: Sequelize.INTEGER\n      \x7d,\n"

/-- The fixed text of the migration template after the per-attribute
column entries: the `createdAt`/`updatedAt` columns, the end of `up`,
and the `down` operation dropping the table. -/
def migFooter (m : Str) : Str :=
  str ",\n      createdAt: \x7b\n        allowNull: false,\n        type: Sequelize.DATE\n      \x7d,\n      updatedAt: \x7b\n        allowNull: false,\n        type: Sequelize.DATE\n      \x7d\n    \x7d);\n  \x7d,\n\n  async down(queryInterface, Sequelize) \x7b\n    await queryInterface.dropTable('" ++
    m ++ str "');\n  \x7d\n\x7d;"

/-- Embedding of `Generate._generateMigrationContent`: the attribute
entries joined with `',\n'` spliced into the fixed migration template. -/
def generateMigrationContent (m : Str) (attrs : List Attr) : Str :=
  migHeader m ++ joinSep (str ",\n") (attrs.map migColEntry) ++ migFooter m

/-! ## Helper lemmas about the string primitives -/

theorem splitOnChar_ne_nil (c : Char) (s : Str) : splitOnChar c s ≠ [] := by
  cases s with
  | nil => simp [splitOnChar]
  | cons x xs =>
    simp only [splitOnChar]
    match splitOnChar c xs with
    | [] => simp
    | y :: ys =>
      by_cases h : x = c <;> simp [h]

theorem splitOnChar_of_not_mem {c : Char} {n : Str} (h : c ∉ n) :
    splitOnChar c n = [n] := by
  induction n with
  | nil => rfl
  | cons a as ih =>
    have ha : a ≠ c := by
      intro hac
      exact h (by simp [hac])
    have has : c ∉ as := fun hm => h (List.mem_cons_of_mem _ hm)
    simp only [splitOnChar, ih has]
    simp [ha]

theorem splitOnChar_append {c : Char} {n : Str} (rest : Str) (h : c ∉ n) :
    splitOnChar c (n ++ c :: rest) = n :: splitOnChar c rest := by
  induction n with
  | nil =>
    simp only [List.nil_append, splitOnChar]
    match hr : splitOnChar c rest with
    | [] => exact absurd hr (splitOnChar_ne_nil c rest)
    | y :: ys => simp
  | cons a as ih =>
    have ha : a ≠ c := by
      intro hac
      exact h (by simp [hac])
    have has : c ∉ as := fun hm => h (List.mem_cons_of_mem _ hm)
    simp only [List.cons_append, splitOnChar, List.append_eq]
    rw [ih has]
    simp [ha]

/-- Whether an `Except` computation succeeded. -/
def exIsOk : Except ε α → Bool
  | Except.ok _ => true
  | Except.error _ => false

/-- The success value of an `Except` computation, if any. -/
def exToOption : Except ε α → Option α
  | Except.ok a => some a
  | Except.error _ => none

theorem parseSegments_ok : ∀ ps : List Str,
    (∀ p ∈ ps, trimStr p ≠ [] → exIsOk (parseAttrPair (trimStr p)) = true) →
    parseSegments ps =
      Except.ok (ps.filterMap (fun p => exToOption (parseAttrPair (trimStr p))))
  | [], _ => rfl
  | p :: ps, h => by
    have ih := parseSegments_ok ps
      (fun q hq hne => h q (List.mem_cons_of_mem _ hq) hne)
    by_cases hp : trimStr p = []
    · have h0 : exToOption (parseAttrPair (trimStr p)) = (none : Option Attr) := by
        rw [hp]; rfl
      simp only [parseSegments, if_pos hp, ih, List.filterMap_cons, h0]
    · have hOk := h p (List.mem_cons_self p ps) hp
      cases hpa : parseAttrPair (trimStr p) with
      | error e => rw [hpa] at hOk; simp [exIsOk] at hOk
      | ok a =>
        simp [parseSegments, hp, hpa, ih, List.filterMap_cons, exToOption]

/-! ## Claims about the attribute parser -/

/-- C1: the parser of this snapshot has no `ref(...)`/`enum(...)` branch,
although the repository README documents both forms and the newer
sequelize model template consumes the fields such a branch would produce.
Evaluating `_parseModelAttributes` at the README's own examples shows
both forms are rejected with the unsupported-data-type error instead of
producing reference/enum descriptors. -/
theorem claim1_ref_enum_rejected_eval :
    parseModelAttributes (str "product_id:ref(products)") =
      Except.error (unsupportedMsg (str "ref(products)")) ∧
    parseModelAttributes (str "status:enum(pending|completed|cancelled)") =
      Except.error (unsupportedMsg (str "enum(pending|completed|cancelled)")) :=
  ⟨rfl, rfl⟩

/-- C5 counterexample: the claim says the typeSpec of a segment is
everything after the first `:`, so that `"a:string:c"` would have
typeSpec `"string:c"` and be rejected as unrecognized. In fact the code
destructures only the first two pieces of `split(':')`: the segment
parses successfully with typeSpec `"string"`, even though `"string:c"`
is not in the type mapping. -/
theorem claim5_counterexample :
    parseModelAttributes (str "a:string:c") =
      Except.ok [Attr.mk (str "a") (str "STRING")] ∧
    dataTypeMapping (toLowerStr (trimStr (str "string:c"))) = none :=
  ⟨rfl, by decide⟩

/-- C5 amended: a segment splits on every `:`; the name is the piece
before the first colon and the typeSpec is the piece between the first
and the second colon — anything after the second colon is ignored. -/
theorem claim5_split_first_two_pieces (n t rest : Str)
    (hn : ':' ∉ n) (ht : ':' ∉ t) (h1 : n ≠ []) (h2 : t ≠ []) :
    splitOnChar ':' (n ++ ':' :: (t ++ ':' :: rest)) =
      n :: t :: splitOnChar ':' rest ∧
    parseAttrPair (n ++ ':' :: (t ++ ':' :: rest)) =
      parseAttrPair (n ++ ':' :: t) := by
  constructor
  · rw [splitOnChar_append (t ++ ':' :: rest) hn, splitOnChar_append rest ht]
  · simp only [parseAttrPair, splitOnChar_append (t ++ ':' :: rest) hn,
      splitOnChar_append rest ht, splitOnChar_append t hn,
      splitOnChar_of_not_mem ht]
    rw [if_neg (by simp [h1, h2]), if_neg (by simp [h1, h2])]

/-- C5 witness: the amended statement at the counterexample's input. -/
theorem claim5_witness :
    parseAttrPair (str "a" ++ ':' :: (str "string" ++ ':' :: str "c")) =
      parseAttrPair (str "a" ++ ':' :: str "string") :=
  (claim5_split_first_two_pieces (str "a") (str "string") (str "c")
    (by decide) (by decide) (by decide) (by decide)).2

/-- C7 counterexample: the claim says any typeSpec outside the seven
documented names fails with a `ParseError`. The typeSpec `constructor`
is outside that vocabulary, yet the segment `a:constructor` parses
successfully: the JavaScript property read hits the inherited truthy
`Object.prototype.constructor`, and its value (the `Object` constructor
function) is pushed as the storage type. -/
theorem claim7_counterexample :
    parseModelAttributes (str "a:constructor") =
      Except.ok [Attr.mk (str "a")
        (str "function Object() \x7b [native code] \x7d")] ∧
    (str "constructor") ∉ [str "string", str "number", str "integer",
      str "bool", str "boolean", str "float", str "date"] :=
  ⟨rfl, by decide⟩

/-- C7 amended: the type vocabulary, with the prototype-chain proviso.
The mapping's own entries resolve exactly the seven documented names to
their storage codes; the worked example parses to the two expected
descriptors; but the property read also accepts the inherited lowercase
keys `constructor` and `__proto__` — only a typeSpec on which the whole
lookup is falsy fails with the unsupported-data-type error, whose text
names the supported set. -/
theorem claim7_vocabulary_amended :
    (dataTypeMapping (str "string") = some (str "STRING") ∧
     dataTypeMapping (str "number") = some (str "BIGINT") ∧
     dataTypeMapping (str "integer") = some (str "INTEGER") ∧
     dataTypeMapping (str "bool") = some (str "BOOLEAN") ∧
     dataTypeMapping (str "boolean") = some (str "BOOLEAN") ∧
     dataTypeMapping (str "float") = some (str "FLOAT") ∧
     dataTypeMapping (str "date") = some (str "DATE")) ∧
    (∀ ts : Str, (dataTypeMapping ts).isSome = true →
      ts ∈ [str "string", str "number", str "integer", str "bool",
        str "boolean", str "float", str "date"]) ∧
    (∀ ts : Str, (dataTypeLookup ts).isSome = true →
      ts ∈ [str "string", str "number", str "integer", str "bool",
        str "boolean", str "float", str "date"] ∨
        ts = str "constructor" ∨ ts = str "__proto__") ∧
    parseModelAttributes (str "name:string,age:integer") =
      Except.ok [Attr.mk (str "name") (str "STRING"),
        Attr.mk (str "age") (str "INTEGER")] ∧
    (∀ n t : Str, ':' ∉ n → ':' ∉ t → n ≠ [] → t ≠ [] →
      dataTypeLookup (toLowerStr (trimStr t)) = none →
      parseAttrPair (n ++ ':' :: t) =
        Except.error (unsupportedMsg (toLowerStr (trimStr t)))) ∧
    (∀ t : Str, ∃ pre : Str, unsupportedMsg t = pre ++ supportedTypesList) := by
  have hvocab : ∀ ts : Str, (dataTypeMapping ts).isSome = true →
      ts ∈ [str "string", str "number", str "integer", str "bool",
        str "boolean", str "float", str "date"] := by
    intro ts h
    unfold dataTypeMapping at h
    split_ifs at h with h1 h2 h3 h4 h5 h6 h7
    · simp [h1]
    · simp [h2]
    · simp [h3]
    · simp [h4]
    · simp [h5]
    · simp [h6]
    · simp [h7]
    · simp at h
  refine ⟨⟨rfl, rfl, rfl, rfl, rfl, rfl, rfl⟩, hvocab, ?_, rfl, ?_, ?_⟩
  · intro ts h
    unfold dataTypeLookup at h
    cases hm : dataTypeMapping ts with
    | some v => exact Or.inl (hvocab ts (by simp [hm]))
    | none =>
      rw [hm] at h
      split_ifs at h with h1 h2
      · exact Or.inr (Or.inl h1)
      · exact Or.inr (Or.inr h2)
      · simp at h
  · intro n t hn ht h1 h2 hmap
    simp only [parseAttrPair, splitOnChar_append t hn, splitOnChar_of_not_mem ht]
    rw [if_neg (by simp [h1, h2])]
    simp [hmap]
  · intro t
    exact ⟨str "Unsupported data type: \"" ++ t ++ str "\". Supported types: ",
      by simp [unsupportedMsg]⟩

/-- C7 witness: the universal parts of the amended vocabulary theorem
at the concrete unsupported type `uuid`. -/
theorem claim7_amended_witness :
    dataTypeLookup (toLowerStr (trimStr (str "uuid"))) = none ∧
    parseAttrPair (str "a" ++ ':' :: str "uuid") =
      Except.error (unsupportedMsg (toLowerStr (trimStr (str "uuid")))) :=
  ⟨by decide, claim7_vocabulary_amended.2.2.2.2.1 (str "a") (str "uuid")
    (by decide) (by decide) (by decide) (by decide) (by decide)⟩

/-- C10: the parser performs no uniqueness check on attribute names.
For every input within the size caps whose non-empty segments all parse,
the result is one descriptor per non-empty segment in input order —
duplicate names included. -/
theorem claim10_duplicate_names_tolerated (s : Str) (h1 : trimStr s ≠ [])
    (h2 : s.length ≤ 2000) (h3 : (splitOnChar ',' s).length ≤ 30)
    (h4 : ∀ p ∈ splitOnChar ',' s, trimStr p ≠ [] →
      exIsOk (parseAttrPair (trimStr p)) = true) :
    parseModelAttributes s =
      Except.ok ((splitOnChar ',' s).filterMap
        (fun p => exToOption (parseAttrPair (trimStr p)))) := by
  unfold parseModelAttributes
  rw [if_neg h1, if_neg (by omega), if_neg (by omega)]
  exact parseSegments_ok _ h4

/-- C10 witness: the duplicate-name input `a:string,a:integer` parses to
two descriptors with the same name, in input order. -/
theorem claim10_witness :
    parseModelAttributes (str "a:string,a:integer") =
      Except.ok [Attr.mk (str "a") (str "STRING"),
        Attr.mk (str "a") (str "INTEGER")] := by
  rw [claim10_duplicate_names_tolerated (str "a:string,a:integer")
    (by decide) (by decide) (by decide) (by decide)]
  rfl

/-! ## Helper lemmas about `jsLastIndexOf` -/

theorem mem_of_getLastQ : ∀ {l : List α} {a : α}, l.getLast? = some a → a ∈ l
  | [], _, h => by simp at h
  | [x], a, h => by
    simp [List.getLast?] at h
    simp [h]
  | x :: y :: ys, a, h => by
    have h' : (y :: ys).getLast? = some a := by
      simpa [List.getLast?_cons_cons] using h
    exact List.mem_cons_of_mem _ (mem_of_getLastQ h')

theorem le_getLastQ_of_ascending :
    ∀ {l : List Nat}, List.Pairwise (· < ·) l →
      ∀ {a m : Nat}, a ∈ l → l.getLast? = some m → a ≤ m
  | [], _, _, _, ha, _ => by simp at ha
  | [x], _, a, m, ha, hm => by
    simp at ha
    simp [List.getLast?] at hm
    omega
  | x :: y :: ys, hp, a, m, ha, hm => by
    have hm' : (y :: ys).getLast? = some m := by
      simpa [List.getLast?_cons_cons] using hm
    have hp' : List.Pairwise (· < ·) (y :: ys) := hp.of_cons
    rcases List.mem_cons.mp ha with rfl | ha'
    · have hym : y ≤ m :=
        le_getLastQ_of_ascending hp' (List.mem_cons_self y ys) hm'
      have hxy : a < y := (List.pairwise_cons.mp hp).1 y (List.mem_cons_self y ys)
      omega
    · exact le_getLastQ_of_ascending hp' ha' hm'

theorem filter_eq_nil_of_all_false {p : α → Bool} :
    ∀ {l : List α}, (∀ x ∈ l, p x = false) → l.filter p = []
  | [], _ => rfl
  | x :: xs, h => by
    have hx := h x (List.mem_cons_self x xs)
    simp only [List.filter_cons, hx]
    exact filter_eq_nil_of_all_false (fun y hy => h y (List.mem_cons_of_mem _ hy))

/-- When the anchor occurs nowhere in the file, `lastIndexOf` reports no
occurrence. -/
theorem jsLastIndexOf_eq_none {hay needle : Str}
    (h : ∀ j, j ≤ hay.length → leadsWith needle (hay.drop j) = false) :
    jsLastIndexOf hay needle = none := by
  unfold jsLastIndexOf
  rw [filter_eq_nil_of_all_false
    (fun i hi => h i (by have := List.mem_range.mp hi; omega))]
  rfl

/-- A successful `lastIndexOf` result is an actual occurrence, and it is
the last one: every occurrence position is at most the result. -/
theorem jsLastIndexOf_spec {hay needle : Str} {i : Nat}
    (h : jsLastIndexOf hay needle = some i) :
    leadsWith needle (hay.drop i) = true ∧
      ∀ j, j ≤ hay.length → leadsWith needle (hay.drop j) = true → j ≤ i := by
  unfold jsLastIndexOf at h
  have hmem := mem_of_getLastQ h
  have hocc : leadsWith needle (hay.drop i) = true :=
    (List.mem_filter.mp hmem).2
  refine ⟨hocc, fun j hj hjo => ?_⟩
  have hasc : List.Pairwise (· < ·)
      ((List.range (hay.length + 1)).filter
        (fun k => leadsWith needle (hay.drop k))) :=
    (List.pairwise_lt_range _).filter _
  have hjmem : j ∈ (List.range (hay.length + 1)).filter
      (fun k => leadsWith needle (hay.drop k)) :=
    List.mem_filter.mpr ⟨List.mem_range.mpr (by omega), hjo⟩
  exact le_getLastQ_of_ascending hasc hjmem h

theorem any_eq_false_of_all {p : α → Bool} :
    ∀ {l : List α}, (∀ x ∈ l, p x = false) → l.any p = false
  | [], _ => rfl
  | x :: xs, h => by
    have hx := h x (List.mem_cons_self x xs)
    simp only [List.any_cons, hx, Bool.false_or]
    exact any_eq_false_of_all (fun y hy => h y (List.mem_cons_of_mem _ hy))

theorem foldl_insert_eq_concatMap (cnt anchor : Str) :
    ∀ (lines : List Str) (acc : List Str),
      lines.foldl (fun acc line =>
          if leadsWith anchor (trimStr line) then acc ++ [line, cnt]
          else acc ++ [line]) acc
        = acc ++ concatMap (fun line =>
            if leadsWith anchor (trimStr line) then [line, cnt] else [line]) lines
  | [], acc => by simp [concatMap]
  | l :: ls, acc => by
    simp only [List.foldl_cons, concatMap]
    by_cases h : leadsWith anchor (trimStr l) = true
    · rw [if_pos h, if_pos h, foldl_insert_eq_concatMap cnt anchor ls]
      simp
    · rw [if_neg h, if_neg h, foldl_insert_eq_concatMap cnt anchor ls]
      simp

/-! ## Claims about the content patcher -/

/-- C2 counterexample: the claim says a missing anchor in before-anchor
mode fails with a `PatchError`; in fact `_appendContent` only logs the
error and returns — no exception is thrown, unlike the missing-file
case. -/
theorem claim2_counterexample :
    appendContentFS (some (str "abc"))
        (AppendOpts.mk (str "x") (str "before") (str "zzz")) =
      (some (str "abc"), AStatus.anchorMissing) ∧
    AStatus.anchorMissing ≠ AStatus.threwErr :=
  ⟨rfl, by decide⟩

/-- C2 amended: a missing target file throws the `PatchError`; a missing
anchor in before-anchor or after-anchor mode is only logged — the
function returns without throwing and without writing. -/
theorem claim2_failure_modes (file : Option Str) (opts : AppendOpts) :
    (file = none → appendContentFS file opts = (none, AStatus.threwErr)) ∧
    (∀ fc : Str, file = some fc → opts.content ≠ [] →
      opts.appendAt = str "before" →
      (∀ j, j ≤ fc.length → leadsWith opts.appendLine (fc.drop j) = false) →
      appendContentFS file opts = (some fc, AStatus.anchorMissing)) ∧
    (∀ fc : Str, file = some fc → opts.content ≠ [] →
      opts.appendAt = str "after" →
      (∀ line ∈ splitOnChar '\n' fc,
        leadsWith opts.appendLine (trimStr line) = false) →
      appendContentFS file opts = (some fc, AStatus.anchorMissing)) := by
  refine ⟨fun h => by rw [h]; rfl, ?_, ?_⟩
  · intro fc hf hc hb hnone
    subst hf
    simp only [appendContentFS, if_neg hc, if_pos hb,
      jsLastIndexOf_eq_none hnone]
  · intro fc hf hc ha hnone
    subst hf
    have hne : ¬ (opts.appendAt = str "before") := by
      rw [ha]; decide
    simp only [appendContentFS, if_neg hc, if_neg hne, if_pos ha]
    rw [if_neg]
    simp [any_eq_false_of_all hnone]

/-- C2 witness: the amended failure modes at concrete inputs — a missing
file throws, a missing before-anchor does not. -/
theorem claim2_witness :
    appendContentFS none (AppendOpts.mk (str "x") (str "before") (str "zzz")) =
      (none, AStatus.threwErr) ∧
    appendContentFS (some (str "ab"))
        (AppendOpts.mk (str "x") (str "before") (str "zzz")) =
      (some (str "ab"), AStatus.anchorMissing) :=
  ⟨(claim2_failure_modes none
      (AppendOpts.mk (str "x") (str "before") (str "zzz"))).1 rfl,
    (claim2_failure_modes (some (str "ab"))
      (AppendOpts.mk (str "x") (str "before") (str "zzz"))).2.1 (str "ab")
      rfl (by decide) rfl (by decide)⟩

/-- C3 counterexample: the claim says after-anchor inserts only after the
first matching line; on a file with two matching lines the code inserts
after both. -/
theorem claim3_counterexample :
    appendContentFS (some (str "ab\nab"))
        (AppendOpts.mk (str "X") (str "after") (str "ab")) =
      (some (str "ab\nX\nab\nX"), AStatus.appended) ∧
    str "ab\nX\nab\nX" ≠ str "ab\nX\nab" :=
  ⟨rfl, by decide⟩

/-- C3 amended: in before-anchor mode the file is split at the last
occurrence of the anchor (the returned index is an occurrence and no
occurrence lies beyond it) and rewritten as before-part, newline,
insertion, newline, remainder; in after-anchor mode the insertion is
added after every line whose trimmed text starts with the anchor, and
the lines are rejoined with newlines. -/
theorem claim3_anchor_semantics (fc : Str) (opts : AppendOpts)
    (hc : opts.content ≠ []) :
    (∀ i : Nat, opts.appendAt = str "before" →
      jsLastIndexOf fc opts.appendLine = some i →
      appendContentFS (some fc) opts =
        (some (fc.take i ++ '\n' :: (opts.content ++ '\n' :: fc.drop i)),
          AStatus.appended) ∧
      leadsWith opts.appendLine (fc.drop i) = true ∧
      (∀ j, j ≤ fc.length → leadsWith opts.appendLine (fc.drop j) = true →
        j ≤ i)) ∧
    (opts.appendAt = str "after" →
      (splitOnChar '\n' fc).any
        (fun line => leadsWith opts.appendLine (trimStr line)) = true →
      appendContentFS (some fc) opts =
        (some (joinSep (str "\n") (concatMap
          (fun line => if leadsWith opts.appendLine (trimStr line)
            then [line, opts.content] else [line])
          (splitOnChar '\n' fc))), AStatus.appended)) := by
  constructor
  · intro i hb hfind
    refine ⟨?_, (jsLastIndexOf_spec hfind).1, (jsLastIndexOf_spec hfind).2⟩
    simp only [appendContentFS, if_neg hc, if_pos hb, hfind]
  · intro ha hfound
    have hne : ¬ (opts.appendAt = str "before") := by
      rw [ha]; decide
    simp only [appendContentFS, if_neg hc, if_neg hne, if_pos ha]
    rw [foldl_insert_eq_concatMap opts.content opts.appendLine
      (splitOnChar '\n' fc) []]
    rw [if_pos hfound]
    rfl

/-- C3 witness: the amended before-anchor semantics at a concrete file
with two anchor occurrences, splitting at the later one (index 2). -/
theorem claim3_witness :
    appendContentFS (some (str "aba"))
        (AppendOpts.mk (str "X") (str "before") (str "a")) =
      (some ((str "aba").take 2 ++ '\n' :: (str "X" ++ '\n' :: (str "aba").drop 2)),
        AStatus.appended) :=
  ((claim3_anchor_semantics (str "aba")
      (AppendOpts.mk (str "X") (str "before") (str "a"))
      (by decide)).1 2 rfl (by decide)).1

/-- C9: whenever `_appendContent` does not complete an insertion — the
file is missing, the insertion is empty, or the anchor is not found —
the file content is left exactly as it was: every write happens only on
the success path. -/
theorem claim9_no_partial_write (file : Option Str) (opts : AppendOpts)
    (h : (appendContentFS file opts).2 ≠ AStatus.appended) :
    (appendContentFS file opts).1 = file := by
  cases file with
  | none => rfl
  | some fc =>
    simp only [appendContentFS] at h ⊢
    by_cases h1 : opts.content = []
    · simp [h1]
    · rw [if_neg h1] at h ⊢
      by_cases h2 : opts.appendAt = str "before"
      · rw [if_pos h2] at h ⊢
        cases hj : jsLastIndexOf fc opts.appendLine with
        | none => simp [hj]
        | some i =>
          rw [hj] at h
          simp at h
      · rw [if_neg h2] at h ⊢
        by_cases h3 : opts.appendAt = str "after"
        · rw [if_pos h3] at h ⊢
          by_cases h4 : (splitOnChar '\n' fc).any
              (fun line => leadsWith opts.appendLine (trimStr line)) = true
          · simp [h4] at h
          · simp only [h4]
            simp at h4
            simp [h4]
        · rw [if_neg h3] at h
          simp at h

/-- C9 witness: the no-partial-write property at a concrete failed call
(missing before-anchor). -/
theorem claim9_witness :
    (appendContentFS (some (str "abc"))
      (AppendOpts.mk (str "x") (str "before") (str "zzz"))).1 =
      some (str "abc") :=
  claim9_no_partial_write (some (str "abc"))
    (AppendOpts.mk (str "x") (str "before") (str "zzz")) (by decide)

/-! ## Helper lemmas about the structure resolver -/

theorem ensureDirs_ops_mkdir (pp : Str) :
    ∀ (ds : List Str) (fs : FS), ∀ op ∈ (ensureDirs pp fs ds).2,
      ∃ p, op = Op.mkdir p
  | [], _, op, h => by simp [ensureDirs] at h
  | d :: ds, fs, op, h => by
    simp only [ensureDirs] at h
    by_cases he : existsP fs (pjoin pp d) = true
    · rw [if_pos he] at h
      exact ensureDirs_ops_mkdir pp ds fs op h
    · rw [if_neg he] at h
      rcases List.mem_cons.mp h with rfl | h'
      · exact ⟨pjoin pp d, rfl⟩
      · exact ensureDirs_ops_mkdir pp ds _ op h'

theorem dirPass_ops_mkdir (pp : Str) :
    ∀ (its : List Item) (fs : FS), ∀ op ∈ (dirPass pp fs its).2,
      ∃ p, op = Op.mkdir p
  | [], _, op, h => by simp [dirPass] at h
  | Item.dir ns :: its, fs, op, h => by
    simp only [dirPass, List.mem_append] at h
    rcases h with h | h
    · exact ensureDirs_ops_mkdir pp ns fs op h
    · exact dirPass_ops_mkdir pp its _ op h
  | Item.file n c t td f :: its, fs, op, h => by
    simp only [dirPass] at h
    exact dirPass_ops_mkdir pp its fs op h

theorem filePass_ops_write (tpl : Str → Option Str) (rend : Str → TData → Str)
    (pp : Str) :
    ∀ (its : List Item) (fs : FS), ∀ op ∈ (filePass tpl rend pp fs its).2.1,
      ∃ p c, op = Op.write p c
  | [], _, op, h => by simp [filePass] at h
  | Item.dir ns :: its, fs, op, h => by
    simp only [filePass] at h
    exact filePass_ops_write tpl rend pp its fs op h
  | Item.file n c t td f :: its, fs, op, h => by
    simp only [filePass] at h
    by_cases he : existsP fs (pjoin pp n) = true
    · rw [if_pos he] at h
      exact filePass_ops_write tpl rend pp its fs op h
    · rw [if_neg he] at h
      by_cases ht : c = [] ∧ t ≠ []
      · rw [if_pos ht] at h
        cases htpl : tpl t with
        | none => rw [htpl] at h; simp at h
        | some tc =>
          rw [htpl] at h
          simp only [List.mem_cons] at h
          rcases h with rfl | h'
          · exact ⟨_, _, rfl⟩
          · exact filePass_ops_write tpl rend pp its _ op h'
      · rw [if_neg ht] at h
        simp only [List.mem_cons] at h
        rcases h with rfl | h'
        · exact ⟨_, _, rfl⟩
        · exact filePass_ops_write tpl rend pp its _ op h'

theorem ensureDirs_sublist (pp : Str) :
    ∀ (ds : List Str) (fs : FS),
      List.Sublist ((ensureDirs pp fs ds).2.map opPath) (ds.map (pjoin pp))
  | [], fs => by simp [ensureDirs]
  | d :: ds, fs => by
    simp only [ensureDirs, List.map_cons]
    by_cases he : existsP fs (pjoin pp d) = true
    · rw [if_pos he]
      exact List.Sublist.cons _ (ensureDirs_sublist pp ds fs)
    · rw [if_neg he]
      simp only [List.map_cons, opPath]
      exact List.Sublist.cons₂ _ (ensureDirs_sublist pp ds _)

theorem dirPass_sublist (pp : Str) :
    ∀ (its : List Item) (fs : FS),
      List.Sublist ((dirPass pp fs its).2.map opPath)
        ((listedDirs its).map (pjoin pp))
  | [], fs => by simp [dirPass, listedDirs, concatMap]
  | Item.dir ns :: its, fs => by
    simp only [dirPass, listedDirs, concatMap, List.map_append]
    exact List.Sublist.append (ensureDirs_sublist pp ns fs)
      (dirPass_sublist pp its _)
  | Item.file n c t td f :: its, fs => by
    simp only [dirPass, listedDirs, concatMap, List.nil_append]
    exact dirPass_sublist pp its fs

theorem filePass_sublist (tpl : Str → Option Str) (rend : Str → TData → Str)
    (pp : Str) :
    ∀ (its : List Item) (fs : FS),
      List.Sublist ((filePass tpl rend pp fs its).2.1.map opPath)
        ((fileNames its).map (pjoin pp))
  | [], fs => by simp [filePass, fileNames, concatMap]
  | Item.dir ns :: its, fs => by
    simp only [filePass, fileNames, concatMap, List.nil_append]
    exact filePass_sublist tpl rend pp its fs
  | Item.file n c t td f :: its, fs => by
    simp only [filePass, fileNames, concatMap, List.map_cons]
    by_cases he : existsP fs (pjoin pp n) = true
    · rw [if_pos he]
      exact List.Sublist.cons _ (filePass_sublist tpl rend pp its fs)
    · rw [if_neg he]
      by_cases ht : c = [] ∧ t ≠ []
      · rw [if_pos ht]
        cases htpl : tpl t with
        | none => simp [List.nil_sublist]
        | some tc =>
          simp only [List.map_cons, opPath]
          exact List.Sublist.cons₂ _ (filePass_sublist tpl rend pp its _)
      · rw [if_neg ht]
        simp only [List.map_cons, opPath]
        exact List.Sublist.cons₂ _ (filePass_sublist tpl rend pp its _)

theorem ensureDirs_files (pp : Str) :
    ∀ (ds : List Str) (fs : FS), (ensureDirs pp fs ds).1.files = fs.files
  | [], fs => rfl
  | d :: ds, fs => by
    simp only [ensureDirs]
    by_cases he : existsP fs (pjoin pp d) = true
    · rw [if_pos he]
      exact ensureDirs_files pp ds fs
    · rw [if_neg he]
      exact ensureDirs_files pp ds _

theorem ensureDirs_dirs_ext (pp : Str) :
    ∀ (ds : List Str) (fs : FS),
      ∃ ext, (ensureDirs pp fs ds).1.dirs = fs.dirs ++ ext
  | [], fs => ⟨[], by simp [ensureDirs]⟩
  | d :: ds, fs => by
    simp only [ensureDirs]
    by_cases he : existsP fs (pjoin pp d) = true
    · rw [if_pos he]
      exact ensureDirs_dirs_ext pp ds fs
    · rw [if_neg he]
      rcases ensureDirs_dirs_ext pp ds (FS.mk (fs.dirs ++ [pjoin pp d]) fs.files)
        with ⟨ext, hext⟩
      exact ⟨pjoin pp d :: ext, by simp [hext]⟩

theorem existsP_dirs_ext {fs : FS} {p : Str} (ext : List Str)
    (h : existsP fs p = true) :
    existsP (FS.mk (fs.dirs ++ ext) fs.files) p = true := by
  simp only [existsP, Bool.or_eq_true, List.elem_eq_mem, decide_eq_true_eq] at h ⊢
  rcases h with h | h
  · exact Or.inl (List.mem_append_left _ h)
  · exact Or.inr h

theorem existsP_mono_ensureDirs (pp : Str) (ds : List Str) (fs : FS) (p : Str)
    (h : existsP fs p = true) :
    existsP (ensureDirs pp fs ds).1 p = true := by
  rcases ensureDirs_dirs_ext pp ds fs with ⟨ext, hext⟩
  have hf := ensureDirs_files pp ds fs
  have : (ensureDirs pp fs ds).1 = FS.mk (fs.dirs ++ ext) fs.files := by
    cases hr : (ensureDirs pp fs ds).1 with
    | mk d2 f2 =>
      rw [hr] at hext hf
      simp at hext hf
      simp [hext, hf]
  rw [this]
  exact existsP_dirs_ext ext h

theorem ensureDirs_covers (pp : Str) :
    ∀ (ds : List Str) (fs : FS), ∀ d ∈ ds,
      existsP (ensureDirs pp fs ds).1 (pjoin pp d) = true
  | [], fs, d, hd => by simp at hd
  | e :: ds, fs, d, hd => by
    simp only [ensureDirs]
    by_cases he : existsP fs (pjoin pp e) = true
    · rw [if_pos he]
      rcases List.mem_cons.mp hd with rfl | hd'
      · exact existsP_mono_ensureDirs pp ds fs _ he
      · exact ensureDirs_covers pp ds fs d hd'
    · rw [if_neg he]
      rcases List.mem_cons.mp hd with rfl | hd'
      · refine existsP_mono_ensureDirs pp ds _ _ ?_
        simp [existsP, List.elem_eq_mem]
      · exact ensureDirs_covers pp ds _ d hd'

theorem dirPass_files (pp : Str) :
    ∀ (its : List Item) (fs : FS), (dirPass pp fs its).1.files = fs.files
  | [], fs => rfl
  | Item.dir ns :: its, fs => by
    simp only [dirPass]
    rw [dirPass_files pp its _, ensureDirs_files pp ns fs]
  | Item.file n c t td f :: its, fs => dirPass_files pp its fs

theorem dirPass_dirs_ext (pp : Str) :
    ∀ (its : List Item) (fs : FS),
      ∃ ext, (dirPass pp fs its).1.dirs = fs.dirs ++ ext
  | [], fs => ⟨[], by simp [dirPass]⟩
  | Item.dir ns :: its, fs => by
    simp only [dirPass]
    rcases ensureDirs_dirs_ext pp ns fs with ⟨e1, h1⟩
    rcases dirPass_dirs_ext pp its (ensureDirs pp fs ns).1 with ⟨e2, h2⟩
    exact ⟨e1 ++ e2, by rw [h2, h1, List.append_assoc]⟩
  | Item.file n c t td f :: its, fs => dirPass_dirs_ext pp its fs

theorem existsP_mono_dirPass (pp : Str) (its : List Item) (fs : FS) (p : Str)
    (h : existsP fs p = true) :
    existsP (dirPass pp fs its).1 p = true := by
  rcases dirPass_dirs_ext pp its fs with ⟨ext, hext⟩
  have hf := dirPass_files pp its fs
  have heq : (dirPass pp fs its).1 = FS.mk (fs.dirs ++ ext) fs.files := by
    cases hr : (dirPass pp fs its).1 with
    | mk d2 f2 =>
      rw [hr] at hext hf
      simp at hext hf
      simp [hext, hf]
  rw [heq]
  exact existsP_dirs_ext ext h

theorem dirPass_covers (pp : Str) :
    ∀ (its : List Item) (fs : FS), ∀ d ∈ listedDirs its,
      existsP (dirPass pp fs its).1 (pjoin pp d) = true
  | [], fs, d, hd => by simp [listedDirs, concatMap] at hd
  | Item.dir ns :: its, fs, d, hd => by
    simp only [listedDirs, concatMap, List.mem_append] at hd
    simp only [dirPass]
    rcases hd with hd | hd
    · exact existsP_mono_dirPass pp its _ _ (ensureDirs_covers pp ns fs d hd)
    · exact dirPass_covers pp its _ d hd
  | Item.file n c t td f :: its, fs, d, hd => by
    simp only [listedDirs, concatMap, List.nil_append] at hd
    exact dirPass_covers pp its fs d hd

theorem setFile_dirs (fs : FS) (p c : Str) : (setFile fs p c).dirs = fs.dirs := by
  simp only [setFile]
  by_cases h : fs.files.any (fun f => f.1 = p) = true
  · rw [if_pos h]
  · rw [if_neg h]

theorem filePass_dirs (tpl : Str → Option Str) (rend : Str → TData → Str)
    (pp : Str) :
    ∀ (its : List Item) (fs : FS), (filePass tpl rend pp fs its).1.dirs = fs.dirs
  | [], fs => rfl
  | Item.dir ns :: its, fs => filePass_dirs tpl rend pp its fs
  | Item.file n c t td f :: its, fs => by
    simp only [filePass]
    by_cases he : existsP fs (pjoin pp n) = true
    · rw [if_pos he]
      exact filePass_dirs tpl rend pp its fs
    · rw [if_neg he]
      by_cases ht : c = [] ∧ t ≠ []
      · rw [if_pos ht]
        cases htpl : tpl t with
        | none => rfl
        | some tc =>
          simp only []
          rw [filePass_dirs tpl rend pp its _, setFile_dirs]
      · rw [if_neg ht]
        rw [filePass_dirs tpl rend pp its _, setFile_dirs]

/-! ## Claims about the structure resolver -/

/-- C6: `_addDirsAndFiles` performs the whole directory pass before the
whole file pass. The trace is the directory-pass trace followed by the
file-pass trace; the former contains only `mkdir` operations, the latter
only `write` operations; each pass touches its entries' paths in plan
order (a subsequence, since existing targets are skipped); after the
directory pass every listed directory exists, and the file pass never
changes the set of directories — so every listed parent directory exists
when any file write is attempted. -/
theorem claim6_dirs_before_files (tpl : Str → Option Str)
    (rend : Str → TData → Str) (pp : Str) (fs : FS) (items : List Item) :
    (addDirsAndFiles tpl rend pp fs items).2.1 =
      (dirPass pp fs items).2 ++
        (filePass tpl rend pp (dirPass pp fs items).1 items).2.1 ∧
    (∀ op ∈ (dirPass pp fs items).2, ∃ p, op = Op.mkdir p) ∧
    (∀ op ∈ (filePass tpl rend pp (dirPass pp fs items).1 items).2.1,
      ∃ p c, op = Op.write p c) ∧
    List.Sublist ((dirPass pp fs items).2.map opPath)
      ((listedDirs items).map (pjoin pp)) ∧
    List.Sublist
      ((filePass tpl rend pp (dirPass pp fs items).1 items).2.1.map opPath)
      ((fileNames items).map (pjoin pp)) ∧
    (∀ d ∈ listedDirs items,
      existsP (dirPass pp fs items).1 (pjoin pp d) = true) ∧
    (filePass tpl rend pp (dirPass pp fs items).1 items).1.dirs =
      (dirPass pp fs items).1.dirs :=
  ⟨rfl,
   dirPass_ops_mkdir pp items fs,
   filePass_ops_write tpl rend pp items _,
   dirPass_sublist pp items fs,
   filePass_sublist tpl rend pp items _,
   dirPass_covers pp items fs,
   filePass_dirs tpl rend pp items _⟩

/-- C6 witness: on a concrete plan interleaving a file after its parent
directory entry, the parent directory exists after the directory pass. -/
theorem claim6_witness :
    (str "src") ∈ listedDirs
      [Item.dir [str "src"],
       Item.file (str "src/f.js") (str "x") (str "") none false] ∧
    existsP (dirPass (str "app") (FS.mk [] [])
      [Item.dir [str "src"],
       Item.file (str "src/f.js") (str "x") (str "") none false]).1
      (pjoin (str "app") (str "src")) = true :=
  ⟨by decide,
   (claim6_dirs_before_files (fun _ => none) (fun tc _ => tc) (str "app")
      (FS.mk [] [])
      [Item.dir [str "src"],
       Item.file (str "src/f.js") (str "x") (str "") none false]).2.2.2.2.2.1
      (str "src") (by decide)⟩

/-- C4: evaluating `_addDirsAndFiles` on an existing target with a
`force=true` file entry. The entry is skipped — the file keeps its old
content and no write is performed — although the claim (and the
`--force` flow of util-helper, which attaches this flag) says the file
is overwritten: `_addDirsAndFiles` never reads `item.force`. -/
theorem claim4_force_ignored_eval :
    addDirsAndFiles (fun _ => none) (fun tc _ => tc) (str "app")
        (FS.mk [] [(pjoin (str "app") (str "f.js"), str "old")])
        [Item.file (str "f.js") (str "new") (str "") none true] =
      (FS.mk [] [(pjoin (str "app") (str "f.js"), str "old")], [], true) ∧
    str "old" ≠ str "new" :=
  ⟨rfl, by decide⟩

/-! ## Substring occurrence and claims about the migration content -/

/-- The string `needle` occurs as a contiguous substring of `hay`. -/
def subSeg (needle hay : Str) : Prop :=
  ∃ pre post : Str, hay = pre ++ needle ++ post

theorem subSeg_intro (needle pre post hay : Str)
    (h : hay = pre ++ needle ++ post) : subSeg needle hay :=
  ⟨pre, post, h⟩

theorem subSeg_trans {x y z : Str} (h1 : subSeg x y) (h2 : subSeg y z) :
    subSeg x z := by
  rcases h1 with ⟨p1, s1, rfl⟩
  rcases h2 with ⟨p2, s2, rfl⟩
  exact ⟨p2 ++ p1, s1 ++ s2, by simp [List.append_assoc]⟩

theorem subSeg_mid (x H F : Str) {X : Str} (h : subSeg x X) :
    subSeg x (H ++ X ++ F) := by
  rcases h with ⟨pre, post, rfl⟩
  exact ⟨H ++ pre, post ++ F, by simp [List.append_assoc]⟩

theorem subSeg_joinSep (sep : Str) :
    ∀ (xs : List Str) (x : Str), x ∈ xs → subSeg x (joinSep sep xs)
  | [], x, hx => by simp at hx
  | [y], x, hx => by
    rcases List.mem_singleton.mp hx with rfl
    exact ⟨[], [], by simp [joinSep]⟩
  | y :: z :: zs, x, hx => by
    rcases List.mem_cons.mp hx with rfl | hx'
    · exact ⟨[], sep ++ joinSep sep (z :: zs), by simp [joinSep, List.append_assoc]⟩
    · rcases subSeg_joinSep sep (z :: zs) x hx' with ⟨pre, post, hpp⟩
      exact ⟨y ++ sep ++ pre, post, by simp [joinSep, hpp, List.append_assoc]⟩

/-- C8: structure of the generated migration content. The content is the
fixed header (with the `up` operation creating the table and the
auto-incrementing integer primary key `id`), one column entry per
attribute mapped through its resolved storage type, and the fixed footer
(with the non-null `createdAt`/`updatedAt` timestamp columns and the
`down` operation dropping the table). -/
theorem claim8_migration_content (m : Str) (attrs : List Attr)
    (h : attrs ≠ []) :
    generateMigrationContent m attrs =
      migHeader m ++ joinSep (str ",\n") (attrs.map migColEntry) ++
        migFooter m ∧
    (attrs.map migColEntry).length = attrs.length ∧
    (∀ a ∈ attrs,
      subSeg (a.name ++ str ": \x7b\n        type: Sequelize." ++ a.type)
        (generateMigrationContent m attrs)) ∧
    subSeg (str "createdAt: \x7b\n        allowNull: false,\n        type: Sequelize.DATE\n      \x7d")
      (generateMigrationContent m attrs) ∧
    subSeg (str "updatedAt: \x7b\n        allowNull: false,\n        type: Sequelize.DATE\n      \x7d")
      (generateMigrationContent m attrs) ∧
    subSeg (str "id: \x7b\n        allowNull: false,\n        autoIncrement: true,\n        primaryKey: true,\n        type: Sequelize.INTEGER\n      \x7d")
      (generateMigrationContent m attrs) ∧
    subSeg (str "async up(queryInterface, Sequelize) \x7b\n    await queryInterface.createTable('" ++
        m ++ str "'")
      (generateMigrationContent m attrs) ∧
    subSeg (str "async down(queryInterface, Sequelize) \x7b\n    await queryInterface.dropTable('" ++
        m ++ str "');")
      (generateMigrationContent m attrs) := by
  refine ⟨rfl, by simp, ?_, ?_, ?_, ?_, ?_, ?_⟩
  · intro a ha
    have h1 : subSeg (a.name ++ str ": \x7b\n        type: Sequelize." ++ a.type)
        (migColEntry a) :=
      subSeg_intro _ (str "      ") (str ",\n        allowNull: true\n      \x7d") _
        (by simp [migColEntry, List.append_assoc])
    have h2 : subSeg (migColEntry a)
        (joinSep (str ",\n") (attrs.map migColEntry)) :=
      subSeg_joinSep _ _ _ (List.mem_map_of_mem _ ha)
    exact subSeg_mid _ (migHeader m) (migFooter m) (subSeg_trans h1 h2)
  · refine subSeg_intro _
      (migHeader m ++ joinSep (str ",\n") (attrs.map migColEntry) ++ str ",\n      ")
      (str ",\n      updatedAt: \x7b\n        allowNull: false,\n        type: Sequelize.DATE\n      \x7d\n    \x7d);\n  \x7d,\n\n  async down(queryInterface, Sequelize) \x7b\n    await queryInterface.dropTable('" ++
        m ++ str "');\n  \x7d\n\x7d;") _ ?_
    have hd : migFooter m =
        str ",\n      " ++
          str "createdAt: \x7b\n        allowNull: false,\n        type: Sequelize.DATE\n      \x7d" ++
          (str ",\n      updatedAt: \x7b\n        allowNull: false,\n        type: Sequelize.DATE\n      \x7d\n    \x7d);\n  \x7d,\n\n  async down(queryInterface, Sequelize) \x7b\n    await queryInterface.dropTable('" ++
            m ++ str "');\n  \x7d\n\x7d;") := by
      simp only [migFooter]
      rw [show (str ",\n      createdAt: \x7b\n        allowNull: false,\n        type: Sequelize.DATE\n      \x7d,\n      updatedAt: \x7b\n        allowNull: false,\n        type: Sequelize.DATE\n      \x7d\n    \x7d);\n  \x7d,\n\n  async down(queryInterface, Sequelize) \x7b\n    await queryInterface.dropTable('" : Str) =
        str ",\n      " ++
          str "createdAt: \x7b\n        allowNull: false,\n        type: Sequelize.DATE\n      \x7d" ++
          str ",\n      updatedAt: \x7b\n        allowNull: false,\n        type: Sequelize.DATE\n      \x7d\n    \x7d);\n  \x7d,\n\n  async down(queryInterface, Sequelize) \x7b\n    await queryInterface.dropTable('" from by decide]
      simp [List.append_assoc]
    show generateMigrationContent m attrs = _
    simp only [generateMigrationContent, hd]
    simp [List.append_assoc]
  · refine subSeg_intro _
      (migHeader m ++ joinSep (str ",\n") (attrs.map migColEntry) ++
        str ",\n      createdAt: \x7b\n        allowNull: false,\n        type: Sequelize.DATE\n      \x7d,\n      ")
      (str "\n    \x7d);\n  \x7d,\n\n  async down(queryInterface, Sequelize) \x7b\n    await queryInterface.dropTable('" ++
        m ++ str "');\n  \x7d\n\x7d;") _ ?_
    have hd : migFooter m =
        str ",\n      createdAt: \x7b\n        allowNull: false,\n        type: Sequelize.DATE\n      \x7d,\n      " ++
          str "updatedAt: \x7b\n        allowNull: false,\n        type: Sequelize.DATE\n      \x7d" ++
          (str "\n    \x7d);\n  \x7d,\n\n  async down(queryInterface, Sequelize) \x7b\n    await queryInterface.dropTable('" ++
            m ++ str "');\n  \x7d\n\x7d;") := by
      simp only [migFooter]
      rw [show (str ",\n      createdAt: \x7b\n        allowNull: false,\n        type: Sequelize.DATE\n      \x7d,\n      updatedAt: \x7b\n        allowNull: false,\n        type: Sequelize.DATE\n      \x7d\n    \x7d);\n  \x7d,\n\n  async down(queryInterface, Sequelize) \x7b\n    await queryInterface.dropTable('" : Str) =
        str ",\n      createdAt: \x7b\n        allowNull: false,\n        type: Sequelize.DATE\n      \x7d,\n      " ++
          str "updatedAt: \x7b\n        allowNull: false,\n        type: Sequelize.DATE\n      \x7d" ++
          str "\n    \x7d);\n  \x7d,\n\n  async down(queryInterface, Sequelize) \x7b\n    await queryInterface.dropTable('" from by decide]
      simp [List.append_assoc]
    show generateMigrationContent m attrs = _
    simp only [generateMigrationContent, hd]
    simp [List.append_assoc]
  · refine subSeg_intro _
      (str "'use strict';\n\nmodule.exports = \x7b\n  async up(queryInterface, Sequelize) \x7b\n    await queryInterface.createTable('" ++
        m ++ str "', \x7b\n      ")
      (str ",\n" ++ joinSep (str ",\n") (attrs.map migColEntry) ++ migFooter m) _ ?_
    have hd : migHeader m =
        str "'use strict';\n\nmodule.exports = \x7b\n  async up(queryInterface, Sequelize) \x7b\n    await queryInterface.createTable('" ++
          m ++
          (str "', \x7b\n      " ++
            str "id: \x7b\n        allowNull: false,\n        autoIncrement: true,\n        primaryKey: true,\n        type: Sequelize.INTEGER\n      \x7d" ++
            str ",\n") := by
      simp only [migHeader]
      rw [show (str "', \x7b\n      id: \x7b\n        allowNull: false,\n        autoIncrement: true,\n        primaryKey: true,\n        type: Sequelize.INTEGER\n      \x7d,\n" : Str) =
        str "', \x7b\n      " ++
          str "id: \x7b\n        allowNull: false,\n        autoIncrement: true,\n        primaryKey: true,\n        type: Sequelize.INTEGER\n      \x7d" ++
          str ",\n" from by decide]
    show generateMigrationContent m attrs = _
    simp only [generateMigrationContent, hd]
    simp [List.append_assoc]
  · refine subSeg_intro _
      (str "'use strict';\n\nmodule.exports = \x7b\n  ")
      (str ", \x7b\n      id: \x7b\n        allowNull: false,\n        autoIncrement: true,\n        primaryKey: true,\n        type: Sequelize.INTEGER\n      \x7d,\n" ++
        joinSep (str ",\n") (attrs.map migColEntry) ++ migFooter m) _ ?_
    have hd : migHeader m =
        str "'use strict';\n\nmodule.exports = \x7b\n  " ++
          (str "async up(queryInterface, Sequelize) \x7b\n    await queryInterface.createTable('" ++
            m ++ str "'") ++
          str ", \x7b\n      id: \x7b\n        allowNull: false,\n        autoIncrement: true,\n        primaryKey: true,\n        type: Sequelize.INTEGER\n      \x7d,\n" := by
      simp only [migHeader]
      rw [show (str "'use strict';\n\nmodule.exports = \x7b\n  async up(queryInterface, Sequelize) \x7b\n    await queryInterface.createTable('" : Str) =
        str "'use strict';\n\nmodule.exports = \x7b\n  " ++
          str "async up(queryInterface, Sequelize) \x7b\n    await queryInterface.createTable('" from by decide,
        show (str "', \x7b\n      id: \x7b\n        allowNull: false,\n        autoIncrement: true,\n        primaryKey: true,\n        type: Sequelize.INTEGER\n      \x7d,\n" : Str) =
        str "'" ++
          str ", \x7b\n      id: \x7b\n        allowNull: false,\n        autoIncrement: true,\n        primaryKey: true,\n        type: Sequelize.INTEGER\n      \x7d,\n" from by decide]
      simp [List.append_assoc]
    show generateMigrationContent m attrs = _
    simp only [generateMigrationContent, hd]
    simp [List.append_assoc]
  · refine subSeg_intro _
      (migHeader m ++ joinSep (str ",\n") (attrs.map migColEntry) ++
        str ",\n      createdAt: \x7b\n        allowNull: false,\n        type: Sequelize.DATE\n      \x7d,\n      updatedAt: \x7b\n        allowNull: false,\n        type: Sequelize.DATE\n      \x7d\n    \x7d);\n  \x7d,\n\n  ")
      (str "\n  \x7d\n\x7d;") _ ?_
    have hd : migFooter m =
        str ",\n      createdAt: \x7b\n        allowNull: false,\n        type: Sequelize.DATE\n      \x7d,\n      updatedAt: \x7b\n        allowNull: false,\n        type: Sequelize.DATE\n      \x7d\n    \x7d);\n  \x7d,\n\n  " ++
          (str "async down(queryInterface, Sequelize) \x7b\n    await queryInterface.dropTable('" ++
            m ++ str "');") ++
          str "\n  \x7d\n\x7d;" := by
      simp only [migFooter]
      rw [show (str ",\n      createdAt: \x7b\n        allowNull: false,\n        type: Sequelize.DATE\n      \x7d,\n      updatedAt: \x7b\n        allowNull: false,\n        type: Sequelize.DATE\n      \x7d\n    \x7d);\n  \x7d,\n\n  async down(queryInterface, Sequelize) \x7b\n    await queryInterface.dropTable('" : Str) =
        str ",\n      createdAt: \x7b\n        allowNull: false,\n        type: Sequelize.DATE\n      \x7d,\n      updatedAt: \x7b\n        allowNull: false,\n        type: Sequelize.DATE\n      \x7d\n    \x7d);\n  \x7d,\n\n  " ++
          str "async down(queryInterface, Sequelize) \x7b\n    await queryInterface.dropTable('" from by decide,
        show (str "');\n  \x7d\n\x7d;" : Str) = str "');" ++ str "\n  \x7d\n\x7d;" from by decide]
      simp [List.append_assoc]
    show generateMigrationContent m attrs = _
    simp only [generateMigrationContent, hd]
    simp [List.append_assoc]

/-- C8 witness: the migration structure at a concrete module and a
one-attribute list. -/
theorem claim8_witness :
    ([Attr.mk (str "age") (str "INTEGER")] : List Attr) ≠ [] ∧
    subSeg (str "createdAt: \x7b\n        allowNull: false,\n        type: Sequelize.DATE\n      \x7d")
      (generateMigrationContent (str "users") [Attr.mk (str "age") (str "INTEGER")]) :=
  ⟨by decide,
   (claim8_migration_content (str "users") [Attr.mk (str "age") (str "INTEGER")]
     (by decide)).2.2.2.1⟩
